import Mathlib

/-!
Verification development for the grid-generation pipeline of the
airbnb-minesweeper repository.  The Ruby script `GridGenerator`
(`generate_grid.rb`) is shallowly embedded here: coordinates and prices
are modelled as exact rationals (the script works with IEEE floats; the
embedding idealises them as ℚ), the RGeo geometric predicates
`intersects?` and `contains?` are modelled by their documented OGC
set-theoretic semantics on the exterior ring, and Ruby string/number
conversions are modelled on the fragment of their behaviour the script
exercises (optional leading spaces, an optional sign, decimal digits and
an optional fractional part; exponent forms and underscore separators do
not occur in the data handled by the script).
-/

namespace AirbnbGrid

/-! ### Ruby numeric parsing (`String#to_f`) and price cleaning -/

/-- Decimal digit test used by the numeric parser. -/
def isDigitCh (c : Char) : Bool := decide ('0' ≤ c) && decide (c ≤ '9')

/-- Splits a character list into its maximal leading run of decimal digits
and the remaining characters (the scanning phase of Ruby `String#to_f`). -/
def parseDigits : List Char → List Char × List Char
  | [] => ([], [])
  | c :: cs =>
    if isDigitCh c then
      match parseDigits cs with
      | (ds, rest) => (c :: ds, rest)
    else ([], c :: cs)

/-- Value of a list of decimal digits read in the usual positional way. -/
def digitsVal (l : List Char) : ℕ := l.foldl (fun a c => 10 * a + (c.toNat - 48)) 0

/-- Value contributed by the fractional digits of a decimal literal. -/
def fracVal (l : List Char) : ℚ := (digitsVal l : ℚ) / (10 : ℚ) ^ l.length

/-- Unsigned part of Ruby `String#to_f`: leading digits, an optional dot and
further digits; everything after the recognised prefix is ignored, and the
result is 0 when no digit is found (Ruby returns 0.0 in that case). -/
def rubyToFAux (s : List Char) : ℚ :=
  match parseDigits s with
  | (ip, r1) =>
    let fp : List Char :=
      match r1 with
      | '.' :: rest => (parseDigits rest).1
      | _ => []
    if ip.isEmpty && fp.isEmpty then 0
    else (digitsVal ip : ℚ) + fracVal fp

/-- Sign handling of Ruby `String#to_f`, applied after leading spaces are
dropped. -/
def rubySigned : List Char → ℚ
  | [] => 0
  | c :: rest =>
    if c == '-' then - rubyToFAux rest
    else if c == '+' then rubyToFAux rest
    else rubyToFAux (c :: rest)

/-- Model of Ruby `String#to_f` on the fragment exercised by the script:
optional leading spaces, an optional sign, then an unsigned decimal. -/
def rubyToF (s : List Char) : ℚ := rubySigned (s.dropWhile (fun c => c == ' '))

/-- Price cleaning of `load_airbnb_data`:
Ruby on line 88 runs the substitution `gsub(/[$,]/, '')`, deleting every
dollar sign and comma from the price field. -/
def stripPrice (s : List Char) : List Char := s.filter (fun c => !(c == '$' || c == ','))

/-- The textual form of a plain decimal numeral with integer digits `ip`
and fractional digits `fp` (the dot is present only when `fp` is). -/
def numeralChars (ip fp : List Char) : List Char :=
  ip ++ (if fp.isEmpty then [] else '.' :: fp)

/-- The mathematical value of that numeral. -/
def numeralVal (ip fp : List Char) : ℚ := (digitsVal ip : ℚ) + fracVal fp

/-! ### Point dataset loader (`GridGenerator#load_airbnb_data`) -/

/-- One CSV row of the listings file.  The `latitude` and `longitude`
fields are modelled by the rational value Ruby `to_f` produces for them;
the price field is kept raw because the script cleans it textually first. -/
structure Row where
  price : List Char
  lat : ℚ
  lon : ℚ
deriving DecidableEq

/-- A loaded listing: cleaned price and WGS84 position. -/
structure DataPoint where
  price : ℚ
  lon : ℚ
  lat : ℚ
deriving DecidableEq

/-- The parsed price of a row after textual cleaning (lines 88-89). -/
def cleanPrice (r : Row) : ℚ := rubyToF (stripPrice r.price)

/-- `GridGenerator#load_airbnb_data` (lines 86-106): clean the price,
skip the row when `price <= 0 || lat == 0 || lon == 0`, otherwise append
the listing.  I/O errors are outside the per-row model. -/
def load_airbnb_data : List Row → List DataPoint
  | [] => []
  | r :: rest =>
    if cleanPrice r ≤ 0 ∨ r.lat = 0 ∨ r.lon = 0 then
      load_airbnb_data rest
    else
      { price := cleanPrice r, lon := r.lon, lat := r.lat } :: load_airbnb_data rest

/-! ### Exact plane geometry used to model the RGeo predicates -/

/-- Cross product of the vectors `a - o` and `b - o`. -/
def cross (o a b : ℚ × ℚ) : ℚ := (a.1 - o.1) * (b.2 - o.2) - (a.2 - o.2) * (b.1 - o.1)

/-- The point `p` lies on the closed segment from `a` to `b`. -/
def onSeg (a b p : ℚ × ℚ) : Prop :=
  cross a b p = 0 ∧ min a.1 b.1 ≤ p.1 ∧ p.1 ≤ max a.1 b.1 ∧
    min a.2 b.2 ≤ p.2 ∧ p.2 ≤ max a.2 b.2

instance decOnSeg (a b p : ℚ × ℚ) : Decidable (onSeg a b p) := by
  unfold onSeg
  infer_instance

/-- Closed segments `a b` and `c d` share at least one point. -/
def segsIntersect (a b c d : ℚ × ℚ) : Prop :=
  (((0 < cross c d a ∧ cross c d b < 0) ∨ (cross c d a < 0 ∧ 0 < cross c d b)) ∧
    ((0 < cross a b c ∧ cross a b d < 0) ∨ (cross a b c < 0 ∧ 0 < cross a b d))) ∨
  onSeg a b c ∨ onSeg a b d ∨ onSeg c d a ∨ onSeg c d b

instance decSegsIntersect (a b c d : ℚ × ℚ) : Decidable (segsIntersect a b c d) := by
  unfold segsIntersect
  infer_instance

/-- Consecutive vertex pairs of a ring (the ring is stored closed, with its
first vertex repeated at the end, as the GeoJSON loader produces it). -/
def ringEdges (ring : List (ℚ × ℚ)) : List ((ℚ × ℚ) × (ℚ × ℚ)) := ring.zip ring.tail

/-- Contribution of one ring edge to the winding number of `p`. -/
def edgeCrossing (p : ℚ × ℚ) (e : (ℚ × ℚ) × (ℚ × ℚ)) : ℤ :=
  if e.1.2 ≤ p.2 ∧ p.2 < e.2.2 ∧ 0 < cross e.1 e.2 p then 1
  else if e.2.2 ≤ p.2 ∧ p.2 < e.1.2 ∧ cross e.1 e.2 p < 0 then -1
  else 0

/-- Winding number of `p` with respect to a closed ring. -/
def winding (ring : List (ℚ × ℚ)) (p : ℚ × ℚ) : ℤ :=
  ((ringEdges ring).map (edgeCrossing p)).sum

/-- Inclusive point-in-polygon test: `p` is on the ring or encircled by it. -/
def pointInRing (ring : List (ℚ × ℚ)) (p : ℚ × ℚ) : Prop :=
  (∃ e ∈ ringEdges ring, onSeg e.1 e.2 p) ∨ winding ring p ≠ 0

instance decPointInRing (ring : List (ℚ × ℚ)) (p : ℚ × ℚ) : Decidable (pointInRing ring p) := by
  unfold pointInRing
  infer_instance

/-- Membership in the closed axis-aligned rectangle `[l,r] × [b,t]`. -/
def inRect (l b r t : ℚ) (p : ℚ × ℚ) : Prop := l ≤ p.1 ∧ p.1 ≤ r ∧ b ≤ p.2 ∧ p.2 ≤ t

instance decInRect (l b r t : ℚ) (p : ℚ × ℚ) : Decidable (inRect l b r t p) := by
  unfold inRect
  infer_instance

/-- Corner list of a cell rectangle, in the order the script builds it. -/
def rectCorners (l b r t : ℚ) : List (ℚ × ℚ) := [(l, t), (r, t), (r, b), (l, b)]

/-- Edge list of a cell rectangle. -/
def rectEdges (l b r t : ℚ) : List ((ℚ × ℚ) × (ℚ × ℚ)) :=
  [((l, t), (r, t)), ((r, t), (r, b)), ((r, b), (l, b)), ((l, b), (l, t))]

/-- Model of RGeo `outline.intersects?(cell_polygon)` (line 172) for a
polygon given by its exterior ring and an axis-aligned rectangle: the OGC
`intersects` predicate is inclusive, true exactly when the two closed
regions share at least one point.  That happens iff a ring vertex lies in
the closed rectangle, or a rectangle corner lies in the closed polygon,
or some ring edge meets some rectangle edge. -/
def rectIntersectsRing (ring : List (ℚ × ℚ)) (l b r t : ℚ) : Prop :=
  (∃ v ∈ ring, inRect l b r t v) ∨
  (∃ c ∈ rectCorners l b r t, pointInRing ring c) ∨
  (∃ e1 ∈ ringEdges ring, ∃ e2 ∈ rectEdges l b r t, segsIntersect e1.1 e1.2 e2.1 e2.2)

instance decRectIntersectsRing (ring : List (ℚ × ℚ)) (l b r t : ℚ) :
    Decidable (rectIntersectsRing ring l b r t) := by
  unfold rectIntersectsRing
  infer_instance

/-! ### Grid construction (`GridGenerator#create_grid`) -/

/-- One lattice cell, with the bookkeeping fields the script stores. -/
structure GridCell where
  id : ℕ
  left : ℚ
  top : ℚ
  right : ℚ
  bottom : ℚ
  row : ℕ
  col : ℕ
deriving DecidableEq

/-- Kernel-reducible floor of a rational (`/` on ℤ rounds toward -∞ for a
positive divisor, and a rational denominator is positive). -/
def ratFloor (q : ℚ) : ℤ := q.num / (q.den : ℤ)

/-- Kernel-reducible ceiling of a rational. -/
def ratCeil (q : ℚ) : ℤ := -(ratFloor (-q))

/-- Minimum of a list of rationals (0 for the empty list, which the script
never produces because a polygon ring is nonempty). -/
def minList : List ℚ → ℚ
  | [] => 0
  | x :: xs => xs.foldl min x

/-- Maximum of a list of rationals. -/
def maxList : List ℚ → ℚ
  | [] => 0
  | x :: xs => xs.foldl max x

/-- Western bound of the outline bounding box (line 131). -/
def minLon (ring : List (ℚ × ℚ)) : ℚ := minList (ring.map Prod.fst)

/-- Southern bound of the outline bounding box (line 132). -/
def minLat (ring : List (ℚ × ℚ)) : ℚ := minList (ring.map Prod.snd)

/-- Eastern bound of the outline bounding box (line 133). -/
def maxLon (ring : List (ℚ × ℚ)) : ℚ := maxList (ring.map Prod.fst)

/-- Northern bound of the outline bounding box (line 134). -/
def maxLat (ring : List (ℚ × ℚ)) : ℚ := maxList (ring.map Prod.snd)

/-- `cols = ((max_lon - min_lon) / cell_size_lon).ceil` (line 143). -/
def numCols (ring : List (ℚ × ℚ)) (cl : ℚ) : ℕ :=
  (ratCeil ((maxLon ring - minLon ring) / cl)).toNat

/-- `rows = ((max_lat - min_lat) / cell_size_lat).ceil` (line 144). -/
def numRows (ring : List (ℚ × ℚ)) (ct : ℚ) : ℕ :=
  (ratCeil ((maxLat ring - minLat ring) / ct)).toNat

/-- The cell the script builds at lattice position `(r, c)` with id `i`
(lines 155-182): `left = min_lon + col * cell_lon`,
`bottom = min_lat + row * cell_lat`, `right = left + cell_lon`,
`top = bottom + cell_lat`. -/
def latticeCell (mlon mlat cl ct : ℚ) (i r c : ℕ) : GridCell :=
  { id := i
    left := mlon + (c : ℚ) * cl
    top := mlat + (r : ℚ) * ct + ct
    right := mlon + (c : ℚ) * cl + cl
    bottom := mlat + (r : ℚ) * ct
    row := r
    col := c }

/-- The positions `(r, 0), …, (r, cols - 1)` of one lattice row. -/
def rowPositions (r : ℕ) : ℕ → List (ℕ × ℕ)
  | 0 => []
  | c + 1 => rowPositions r c ++ [(r, c)]

/-- The full row-major lattice traversal of `rows × cols` positions. -/
def latticePositions (cols : ℕ) : ℕ → List (ℕ × ℕ)
  | 0 => []
  | r + 1 => latticePositions cols r ++ rowPositions r cols

/-- The grid loop of `create_grid` (lines 149-187): walk the positions in
order, keep a cell iff its rectangle intersects the outline, and advance
the id counter at every position whether or not the cell is kept. -/
def buildCells (ring : List (ℚ × ℚ)) (mlon mlat cl ct : ℚ) :
    List (ℕ × ℕ) → ℕ → List GridCell
  | [], _ => []
  | rc :: rest, cid =>
    let cell := latticeCell mlon mlat cl ct cid rc.1 rc.2
    if rectIntersectsRing ring cell.left cell.bottom cell.right cell.top then
      cell :: buildCells ring mlon mlat cl ct rest (cid + 1)
    else
      buildCells ring mlon mlat cl ct rest (cid + 1)

/-- `GridGenerator#create_grid`, parameterised by the converted cell sizes
`cl` (degrees of longitude) and `ct` (degrees of latitude). -/
def create_grid (ring : List (ℚ × ℚ)) (cl ct : ℚ) : List GridCell :=
  buildCells ring (minLon ring) (minLat ring) cl ct
    (latticePositions (numCols ring cl) (numRows ring ct)) 1

/-- The keep test of the cell at position `(r, c)`, written on the cell
bounds directly. -/
def cellKept (ring : List (ℚ × ℚ)) (mlon mlat cl ct : ℚ) (r c : ℕ) : Prop :=
  rectIntersectsRing ring (mlon + (c : ℚ) * cl) (mlat + (r : ℚ) * ct)
    (mlon + (c : ℚ) * cl + cl) (mlat + (r : ℚ) * ct + ct)

/-! ### Price statistics and aggregation (`#calculate_price_stats`, `#process_grid`) -/

/-- The quadruple `[min, max, mean, count]` returned by
`calculate_price_stats`; the first three entries are `nil` when no valid
price is present. -/
structure PriceStats where
  pmin : Option ℚ
  pmax : Option ℚ
  pmean : Option ℚ
  count : ℕ
deriving DecidableEq

/-- `GridGenerator#calculate_price_stats` (lines 193-205): keep the
strictly positive prices, and return their min, max, mean and count. -/
def calculate_price_stats (prices : List ℚ) : PriceStats :=
  match prices.filter (fun p => decide (0 < p)) with
  | [] => { pmin := none, pmax := none, pmean := none, count := 0 }
  | q :: qs =>
    { pmin := some (qs.foldl min q)
      pmax := some (qs.foldl max q)
      pmean := some ((q :: qs).sum / ((qs.length + 1 : ℕ) : ℚ))
      count := qs.length + 1 }

/-- Model of RGeo `cell[:polygon].contains?(listing[:point])` (line 221)
for the rectangular cell polygon: OGC `contains` holds exactly when the
point lies in the interior of the polygon, so a point on any edge of the
rectangle is not contained. -/
def pointInCell (cell : GridCell) (p : DataPoint) : Bool :=
  decide (cell.left < p.lon ∧ p.lon < cell.right ∧ cell.bottom < p.lat ∧ p.lat < cell.top)

/-- The prices collected for one cell by the scan of lines 220-224, in
input order. -/
def pricesInCell (listings : List DataPoint) (cell : GridCell) : List ℚ :=
  (listings.filter (fun l => pointInCell cell l)).map (fun l => l.price)

/-- Ruby `Float#round` (round half away from zero), as used with two
digits on lines 237-239. -/
def rubyRound (q : ℚ) : ℤ :=
  if 0 ≤ q then ratFloor (q + 1 / 2) else -(ratFloor (-q + 1 / 2))

/-- Rounding to two decimal places at output time. -/
def round2 (q : ℚ) : ℚ := ((rubyRound (q * 100) : ℤ) : ℚ) / 100

/-- One output feature with the properties written on lines 231-241. -/
structure Feature where
  id : ℕ
  left : ℚ
  top : ℚ
  right : ℚ
  bottom : ℚ
  price_min : ℚ
  price_max : ℚ
  price_mean : ℚ
  listings_count : ℚ
deriving DecidableEq

/-- The body of the `process_grid` loop for one cell: compute the price
statistics of the points contained in the cell and emit a feature exactly
when the count is positive (`if num_points > 0`, line 230); the emitted
price fields are the statistics rounded to two decimals and
`listings_count` is the count converted to a float (line 240). -/
def emitFeature (listings : List DataPoint) (cell : GridCell) : Option Feature :=
  let stats := calculate_price_stats (pricesInCell listings cell)
  if 0 < stats.count then
    some { id := cell.id
           left := cell.left
           top := cell.top
           right := cell.right
           bottom := cell.bottom
           price_min := round2 (stats.pmin.getD 0)
           price_max := round2 (stats.pmax.getD 0)
           price_mean := round2 (stats.pmean.getD 0)
           listings_count := (stats.count : ℚ) }
  else none

/-- `GridGenerator#process_grid` (lines 207-266). -/
def process_grid (grid_cells : List GridCell) (listings : List DataPoint) : List Feature :=
  grid_cells.filterMap (emitFeature listings)

/-! ### Command-line argument handling (lines 325-348) -/

/-- Outcome of the argument-parsing prologue of the script. -/
inductive CliOutcome where
  | usageExitZero : CliOutcome
  | cellSizeError : CliOutcome
  | proceed : List Char → ℚ → CliOutcome
deriving DecidableEq

/-- Lines 327-348: a help flag or an empty argument list prints the usage
text and exits with status 0; otherwise the first argument is the city and
an optional second argument is converted with `to_f` and rejected when not
positive. -/
def parseArgs (argv : List (List Char)) : CliOutcome :=
  if argv.contains ['-', 'h'] ∨ argv.contains ['-', '-', 'h', 'e', 'l', 'p'] ∨ argv.length < 1 then
    CliOutcome.usageExitZero
  else
    match argv with
    | [] => CliOutcome.usageExitZero
    | city :: rest =>
      match rest with
      | [] => CliOutcome.proceed city 200
      | cs :: _ =>
        if rubyToF cs ≤ 0 then CliOutcome.cellSizeError
        else CliOutcome.proceed city (rubyToF cs)

/-- Exit status fixed by the parsing prologue (`none` when the run
continues to the file-existence checks). -/
def cliExitCode : CliOutcome → Option ℕ
  | CliOutcome.usageExitZero => some 0
  | CliOutcome.cellSizeError => some 1
  | CliOutcome.proceed _ _ => none

/-! ### Coordinate conversion (lines 17-31) -/

/-- The hardcoded reference latitude `@lat = 38.7`, set in the constructor
independently of the city argument and of any input file. -/
noncomputable def referenceLat : ℝ := 38.7

/-- `@meters_per_degree_lat = 111000.0` (line 21). -/
noncomputable def metersPerDegreeLat : ℝ := 111000

/-- `@meters_per_degree_lon = 111000.0 * Math.cos(@lat * PI / 180)` (line 22). -/
noncomputable def metersPerDegreeLon : ℝ := 111000 * Real.cos (referenceLat * Real.pi / 180)

/-- `GridGenerator#meters_to_degrees_lat` (lines 25-27). -/
noncomputable def meters_to_degrees_lat (m : ℝ) : ℝ := m / metersPerDegreeLat

/-- `GridGenerator#meters_to_degrees_lon` (lines 29-31). -/
noncomputable def meters_to_degrees_lon (m : ℝ) : ℝ := m / metersPerDegreeLon

/-! ### Concrete fixtures used by counterexamples and witnesses -/

/-- A closed square outline ring spanning `[0,2] × [0,2]`. -/
def sq2Ring : List (ℚ × ℚ) := [(0, 0), (2, 0), (2, 2), (0, 2), (0, 0)]

/-- A closed square outline ring spanning `[0,1] × [0,1]`. -/
def unitRing : List (ℚ × ℚ) := [(0, 0), (1, 0), (1, 1), (0, 1), (0, 0)]

/-- Two points, one strictly inside cell 1 and one strictly inside cell 3
of the `2 × 2` unit grid over `sq2Ring`. -/
def demoPts : List DataPoint :=
  [{ price := 100, lon := 1 / 2, lat := 1 / 2 },
   { price := 80, lon := 1 / 2, lat := 3 / 2 }]

/-- A point sitting exactly on the shared vertical edge `lon = 1` of the
`2 × 2` unit grid over `sq2Ring`. -/
def edgePt : DataPoint := { price := 100, lon := 1, lat := 1 / 2 }

/-- A single point with the tiny but accepted price `0.004`. -/
def tinyPricePts : List DataPoint := [{ price := 1 / 250, lon := 1 / 2, lat := 1 / 2 }]

/-! ### Lemmas about the numeric parser and the loader -/

lemma digit_ne {c d : Char} (h : isDigitCh c = true) (hd : isDigitCh d = false) :
    (c == d) = false := by
  rcases Bool.eq_false_or_eq_true (c == d) with h2 | h2
  · have hcd : c = d := by simpa using h2
    subst hcd
    rw [h] at hd
    exact absurd hd (by simp)
  · exact h2

lemma parseDigits_nil : parseDigits [] = ([], []) := rfl

lemma parseDigits_append {ds : List Char} (h : ∀ c ∈ ds, isDigitCh c = true)
    (rest : List Char) :
    parseDigits (ds ++ rest) = (ds ++ (parseDigits rest).1, (parseDigits rest).2) := by
  induction ds with
  | nil => simp
  | cons c cs ih =>
    have hc : isDigitCh c = true := h c (List.mem_cons_self c cs)
    have ih2 := ih (fun x hx => h x (List.mem_cons_of_mem c hx))
    simp only [List.cons_append, parseDigits, hc, if_true, List.append_eq, ih2]

lemma parseDigits_dot (l : List Char) : parseDigits ('.' :: l) = ([], '.' :: l) := by
  have h : isDigitCh '.' = false := by decide
  simp [parseDigits, h]

lemma rubyToFAux_numeral {ip fp : List Char} (hip : ip ≠ [])
    (hipd : ∀ c ∈ ip, isDigitCh c = true) (hfpd : ∀ c ∈ fp, isDigitCh c = true) :
    rubyToFAux (numeralChars ip fp) = numeralVal ip fp := by
  by_cases hfp : fp.isEmpty
  · have hfp2 : fp = [] := by simpa [List.isEmpty_iff] using hfp
    subst hfp2
    have h1 : parseDigits (ip ++ []) = (ip ++ [], []) := by
      simpa [parseDigits_nil] using parseDigits_append hipd []
    rw [List.append_nil] at h1
    simp [numeralChars, rubyToFAux, h1, List.isEmpty_iff, hip, numeralVal]
  · have h1 : parseDigits (ip ++ '.' :: fp) = (ip, '.' :: fp) := by
      simpa [parseDigits_dot] using parseDigits_append hipd ('.' :: fp)
    have h2 : parseDigits (fp ++ []) = (fp ++ [], []) := by
      simpa [parseDigits_nil] using parseDigits_append hfpd []
    rw [List.append_nil] at h2
    simp [numeralChars, hfp, rubyToFAux, h1, h2, List.isEmpty_iff, hip, numeralVal]

lemma rubyToF_numeral {ip fp : List Char} (hip : ip ≠ [])
    (hipd : ∀ c ∈ ip, isDigitCh c = true) (hfpd : ∀ c ∈ fp, isDigitCh c = true) :
    rubyToF (numeralChars ip fp) = numeralVal ip fp := by
  obtain ⟨d, ds, hds⟩ := List.exists_cons_of_ne_nil hip
  subst hds
  have hd : isDigitCh d = true := hipd d (List.mem_cons_self d ds)
  have hsp : (d == ' ') = false := digit_ne hd (by decide)
  have hmi : (d == '-') = false := digit_ne hd (by decide)
  have hpl : (d == '+') = false := digit_ne hd (by decide)
  have hshape : numeralChars (d :: ds) fp
      = d :: (ds ++ (if fp.isEmpty then [] else '.' :: fp)) := by
    simp [numeralChars]
  have key : (numeralChars (d :: ds) fp).dropWhile (fun c => c == ' ')
      = d :: (ds ++ (if fp.isEmpty then [] else '.' :: fp)) := by
    rw [hshape, List.dropWhile_cons]
    simp [hsp]
  rw [rubyToF, key, rubySigned]
  simp only [hmi, hpl, Bool.false_eq_true, if_false]
  rw [← List.cons_append]
  exact rubyToFAux_numeral hip hipd hfpd

lemma mem_load_of_valid {r : Row} {rows : List Row} (hmem : r ∈ rows)
    (hvalid : ¬(cleanPrice r ≤ 0 ∨ r.lat = 0 ∨ r.lon = 0)) :
    ({ price := cleanPrice r, lon := r.lon, lat := r.lat } : DataPoint)
      ∈ load_airbnb_data rows := by
  induction rows with
  | nil => cases hmem
  | cons a t ih =>
    rcases List.mem_cons.mp hmem with h | h
    · subst h
      rw [load_airbnb_data, if_neg hvalid]
      exact List.mem_cons_self _ _
    · rw [load_airbnb_data]
      split
      · exact ih h
      · exact List.mem_cons_of_mem _ (ih h)

lemma load_eq_filter_map (rows : List Row) :
    load_airbnb_data rows
      = (rows.filter (fun r => decide (0 < cleanPrice r ∧ r.lat ≠ 0 ∧ r.lon ≠ 0))).map
          (fun r => { price := cleanPrice r, lon := r.lon, lat := r.lat }) := by
  induction rows with
  | nil => rfl
  | cons a t ih =>
    by_cases h : cleanPrice a ≤ 0 ∨ a.lat = 0 ∨ a.lon = 0
    · have hbad : ¬(0 < cleanPrice a ∧ a.lat ≠ 0 ∧ a.lon ≠ 0) := by
        push_neg
        rcases h with h | h | h
        · intro hc
          exact absurd hc (not_lt.mpr h)
        · intro _ hc
          exact absurd h hc
        · intro _ _
          exact h
      rw [load_airbnb_data, if_pos h, List.filter_cons_of_neg (by simpa using hbad), ih]
    · have hgood : 0 < cleanPrice a ∧ a.lat ≠ 0 ∧ a.lon ≠ 0 := by
        push_neg at h
        exact h
      rw [load_airbnb_data, if_neg h, List.filter_cons_of_pos (by simpa using hgood),
        List.map_cons, ih]

/-- C7: for every input row, the loader skips the row exactly when the
parsed price is nonpositive or a parsed coordinate is exactly zero; the
accepted rows are emitted in input order (the output is the filtered input,
mapped to data points), and every emitted point has a positive price and
nonzero coordinates.  The loader never raises on a row: `load_airbnb_data`
is a total function into lists. -/
theorem loader_validation (rows : List Row) :
    load_airbnb_data rows
      = (rows.filter (fun r => decide (0 < cleanPrice r ∧ r.lat ≠ 0 ∧ r.lon ≠ 0))).map
          (fun r => { price := cleanPrice r, lon := r.lon, lat := r.lat }) ∧
    ∀ p ∈ load_airbnb_data rows, 0 < p.price ∧ p.lat ≠ 0 ∧ p.lon ≠ 0 := by
  refine ⟨load_eq_filter_map rows, ?_⟩
  intro p hp
  rw [load_eq_filter_map rows] at hp
  rcases List.mem_map.mp hp with ⟨r, hr, hrp⟩
  have hcond : 0 < cleanPrice r ∧ r.lat ≠ 0 ∧ r.lon ≠ 0 := by
    simpa using (List.mem_filter.mp hr).2
  rw [← hrp]
  exact ⟨hcond.1, hcond.2.1, hcond.2.2⟩

/-- A row whose price field is the decorated positive numeral `$50` but
whose coordinates are the zero sentinel. -/
def cexRow : Row := { price := ['$', '5', '0'], lat := 0, lon := 0 }

/-- C8 counterexample: the price field of `cexRow` is the positive number
50 decorated only with a currency symbol, and stripping recovers it, yet
the loader rejects the row (because of its zero coordinates), so the claim
that every such row is accepted is false. -/
theorem price_stripping_cex :
    stripPrice cexRow.price = ['5', '0'] ∧ cleanPrice cexRow = 50 ∧ (0 : ℚ) < 50 ∧
    load_airbnb_data [cexRow] = [] := by
  with_unfolding_all decide

/-- C8 (amended): the loader strips dollar signs and commas (the currency
symbol and group separator occurring in the dataset) from the price field
before parsing, so a row whose stripped price field is a plain positive
decimal numeral parses to exactly that number; such a row is accepted
provided its latitude and longitude are nonzero. -/
theorem price_stripping_amended (r : Row) (ip fp : List Char) (hip : ip ≠ [])
    (hipd : ∀ c ∈ ip, isDigitCh c = true) (hfpd : ∀ c ∈ fp, isDigitCh c = true)
    (hdec : stripPrice r.price = numeralChars ip fp) (hpos : 0 < numeralVal ip fp) :
    cleanPrice r = numeralVal ip fp ∧
    (r.lat ≠ 0 → r.lon ≠ 0 → ∀ rows : List Row, r ∈ rows →
      ({ price := numeralVal ip fp, lon := r.lon, lat := r.lat } : DataPoint)
        ∈ load_airbnb_data rows) := by
  have hval : cleanPrice r = numeralVal ip fp := by
    rw [cleanPrice, hdec]
    exact rubyToF_numeral hip hipd hfpd
  refine ⟨hval, fun hlat hlon rows hmem => ?_⟩
  have hvalid : ¬(cleanPrice r ≤ 0 ∨ r.lat = 0 ∨ r.lon = 0) := by
    push_neg
    refine ⟨?_, hlat, hlon⟩
    rw [hval]
    exact hpos
  have hres := mem_load_of_valid hmem hvalid
  rw [hval] at hres
  exact hres

/-- A row carrying the decorated price `$1,234.50` and valid coordinates. -/
def okRow : Row := { price := ['$', '1', ',', '2', '3', '4', '.', '5', '0'], lat := 38, lon := -9 }

/-- Witness for C8: the amended theorem applied to `okRow`, whose stripped
price field is the numeral 1234.50. -/
theorem price_stripping_amended_witness :
    cleanPrice okRow = numeralVal ['1', '2', '3', '4'] ['5', '0'] ∧
    (okRow.lat ≠ 0 → okRow.lon ≠ 0 → ∀ rows : List Row, okRow ∈ rows →
      ({ price := numeralVal ['1', '2', '3', '4'] ['5', '0'], lon := okRow.lon, lat := okRow.lat }
          : DataPoint) ∈ load_airbnb_data rows) :=
  price_stripping_amended okRow ['1', '2', '3', '4'] ['5', '0'] (by decide)
    (by decide) (by decide) (by with_unfolding_all decide) (by with_unfolding_all decide)

/-! ### Lemmas about the grid construction -/

instance decCellKept (ring : List (ℚ × ℚ)) (mlon mlat cl ct : ℚ) (r c : ℕ) :
    Decidable (cellKept ring mlon mlat cl ct r c) := by
  unfold cellKept
  infer_instance

lemma buildCells_append (ring : List (ℚ × ℚ)) (mlon mlat cl ct : ℚ)
    (ps qs : List (ℕ × ℕ)) (n : ℕ) :
    buildCells ring mlon mlat cl ct (ps ++ qs) n
      = buildCells ring mlon mlat cl ct ps n
          ++ buildCells ring mlon mlat cl ct qs (n + ps.length) := by
  induction ps generalizing n with
  | nil => simp [buildCells]
  | cons rc rest ih =>
    simp only [List.cons_append, buildCells, List.append_eq]
    split
    · rw [ih]
      simp [List.length_cons, Nat.add_comm, Nat.add_assoc, Nat.add_left_comm]
    · rw [ih]
      simp [List.length_cons, Nat.add_comm, Nat.add_assoc, Nat.add_left_comm]

lemma buildCells_singleton (ring : List (ℚ × ℚ)) (mlon mlat cl ct : ℚ) (r c m : ℕ) :
    buildCells ring mlon mlat cl ct [(r, c)] m
      = if cellKept ring mlon mlat cl ct r c
          then [latticeCell mlon mlat cl ct m r c] else [] := by
  rw [buildCells]
  by_cases h : cellKept ring mlon mlat cl ct r c
  · rw [if_pos h, if_pos]
    · rfl
    · exact h
  · rw [if_neg h, if_neg]
    · rfl
    · exact h

lemma rowPositions_length (r cols : ℕ) : (rowPositions r cols).length = cols := by
  induction cols with
  | zero => rfl
  | succ k ih => simp [rowPositions, ih]

lemma latticePositions_length (cols rows : ℕ) :
    (latticePositions cols rows).length = rows * cols := by
  induction rows with
  | zero => simp [latticePositions]
  | succ r ih => simp [latticePositions, ih, rowPositions_length, Nat.succ_mul]

lemma mem_buildCells_row (ring : List (ℚ × ℚ)) (mlon mlat cl ct : ℚ)
    (r cols n : ℕ) (x : GridCell) :
    x ∈ buildCells ring mlon mlat cl ct (rowPositions r cols) n ↔
      ∃ c, c < cols ∧ cellKept ring mlon mlat cl ct r c ∧
        x = latticeCell mlon mlat cl ct (n + c) r c := by
  induction cols with
  | zero => simp [rowPositions, buildCells]
  | succ k ih =>
    rw [rowPositions, buildCells_append, List.mem_append, ih, buildCells_singleton,
      rowPositions_length]
    constructor
    · rintro (⟨c, hc, hk, hx⟩ | hx)
      · exact ⟨c, Nat.lt_succ_of_lt hc, hk, hx⟩
      · by_cases hk : cellKept ring mlon mlat cl ct r k
        · rw [if_pos hk] at hx
          rcases List.mem_singleton.mp hx with hx2
          exact ⟨k, Nat.lt_succ_self k, hk, hx2⟩
        · rw [if_neg hk] at hx
          cases hx
    · rintro ⟨c, hc, hk, hx⟩
      rcases Nat.lt_succ_iff_lt_or_eq.mp hc with hlt | heq
      · exact Or.inl ⟨c, hlt, hk, hx⟩
      · subst heq
        refine Or.inr ?_
        rw [if_pos hk]
        exact List.mem_singleton.mpr hx

lemma mem_buildCells_lattice (ring : List (ℚ × ℚ)) (mlon mlat cl ct : ℚ) (cols : ℕ) :
    ∀ (rows : ℕ) (x : GridCell),
      x ∈ buildCells ring mlon mlat cl ct (latticePositions cols rows) 1 ↔
        ∃ r c, r < rows ∧ c < cols ∧ cellKept ring mlon mlat cl ct r c ∧
          x = latticeCell mlon mlat cl ct (r * cols + c + 1) r c := by
  intro rows
  induction rows with
  | zero =>
    intro x
    simp [latticePositions, buildCells]
  | succ R ih =>
    intro x
    rw [latticePositions, buildCells_append, List.mem_append, ih, mem_buildCells_row,
      latticePositions_length]
    constructor
    · rintro (⟨r, c, hr, hc, hk, hx⟩ | ⟨c, hc, hk, hx⟩)
      · exact ⟨r, c, Nat.lt_succ_of_lt hr, hc, hk, hx⟩
      · refine ⟨R, c, Nat.lt_succ_self R, hc, hk, ?_⟩
        rw [hx]
        have he : 1 + R * cols + c = R * cols + c + 1 := by omega
        rw [he]
    · rintro ⟨r, c, hr, hc, hk, hx⟩
      rcases Nat.lt_succ_iff_lt_or_eq.mp hr with hlt | heq
      · exact Or.inl ⟨r, c, hlt, hc, hk, hx⟩
      · subst heq
        refine Or.inr ⟨c, hc, hk, ?_⟩
        rw [hx]
        simp [Nat.add_comm, Nat.add_assoc, Nat.add_left_comm]

lemma mem_create_grid (ring : List (ℚ × ℚ)) (cl ct : ℚ) (x : GridCell) :
    x ∈ create_grid ring cl ct ↔
      ∃ r c, r < numRows ring ct ∧ c < numCols ring cl ∧
        cellKept ring (minLon ring) (minLat ring) cl ct r c ∧
        x = latticeCell (minLon ring) (minLat ring) cl ct (r * numCols ring cl + c + 1) r c :=
  mem_buildCells_lattice ring (minLon ring) (minLat ring) cl ct (numCols ring cl)
    (numRows ring ct) x

lemma buildCells_id_bounds (ring : List (ℚ × ℚ)) (mlon mlat cl ct : ℚ) :
    ∀ (ps : List (ℕ × ℕ)) (n : ℕ), ∀ x ∈ buildCells ring mlon mlat cl ct ps n, n ≤ x.id := by
  intro ps
  induction ps with
  | nil =>
    intro n x hx
    cases hx
  | cons rc rest ih =>
    intro n x hx
    rw [buildCells] at hx
    split at hx
    · rcases List.mem_cons.mp hx with h | h
      · rw [h]
        exact le_refl n
      · exact le_trans (Nat.le_succ n) (ih (n + 1) x h)
    · exact le_trans (Nat.le_succ n) (ih (n + 1) x hx)

lemma buildCells_pairwise_id (ring : List (ℚ × ℚ)) (mlon mlat cl ct : ℚ) :
    ∀ (ps : List (ℕ × ℕ)) (n : ℕ),
      (buildCells ring mlon mlat cl ct ps n).Pairwise (fun a b => a.id < b.id) := by
  intro ps
  induction ps with
  | nil =>
    intro n
    exact List.Pairwise.nil
  | cons rc rest ih =>
    intro n
    rw [buildCells]
    split
    · refine List.Pairwise.cons ?_ (ih (n + 1))
      intro b hb
      have hle := buildCells_id_bounds ring mlon mlat cl ct rest (n + 1) b hb
      show (latticeCell mlon mlat cl ct n rc.1 rc.2).id < b.id
      simp only [latticeCell]
      omega
    · exact ih (n + 1)

lemma create_grid_nodup (ring : List (ℚ × ℚ)) (cl ct : ℚ) :
    (create_grid ring cl ct).Nodup := by
  have h := buildCells_pairwise_id ring (minLon ring) (minLat ring) cl ct
    (latticePositions (numCols ring cl) (numRows ring ct)) 1
  exact h.imp (fun hlt => by
    intro he
    rw [he] at hlt
    exact lt_irrefl _ hlt)

lemma feature_from_cell (grid : List GridCell) (pts : List DataPoint) :
    ∀ f ∈ process_grid grid pts, ∃ c ∈ grid,
      f.id = c.id ∧ f.left = c.left ∧ f.top = c.top ∧ f.right = c.right ∧
      f.bottom = c.bottom ∧ emitFeature pts c = some f := by
  intro f hf
  rcases List.mem_filterMap.mp hf with ⟨c, hc, hemit⟩
  have hfields : f.id = c.id ∧ f.left = c.left ∧ f.top = c.top ∧ f.right = c.right ∧
      f.bottom = c.bottom := by
    have h2 := hemit
    simp only [emitFeature] at h2
    split at h2
    · have h3 := Option.some.inj h2
      rw [← h3]
      exact ⟨rfl, rfl, rfl, rfl, rfl⟩
    · cases h2
  exact ⟨c, hc, hfields.1, hfields.2.1, hfields.2.2.1, hfields.2.2.2.1,
    hfields.2.2.2.2, hemit⟩

/-- C4: ids are assigned sequentially from 1 over the full row-major
lattice, so every kept cell satisfies `id = row * cols + col + 1` with its
`left`/`bottom` bounds the corresponding offsets from the bounding-box
origin; consequently every emitted feature's id is reconstructed by the
row and column implied by its `left`/`bottom` offsets; and emitted ids
need not be contiguous, as the concrete `2 × 2` run emitting ids `[1, 3]`
shows. -/
theorem id_scheme (ring : List (ℚ × ℚ)) (cl ct : ℚ) (pts : List DataPoint)
    (hcl : 0 < cl) (hct : 0 < ct) :
    (∀ c ∈ create_grid ring cl ct,
        c.id = c.row * numCols ring cl + c.col + 1 ∧
        c.left = minLon ring + (c.col : ℚ) * cl ∧
        c.bottom = minLat ring + (c.row : ℚ) * ct) ∧
    (∀ f ∈ process_grid (create_grid ring cl ct) pts, ∀ r cc : ℕ,
        f.left = minLon ring + (cc : ℚ) * cl → f.bottom = minLat ring + (r : ℚ) * ct →
        f.id = r * numCols ring cl + cc + 1) ∧
    (process_grid (create_grid sq2Ring 1 1) demoPts).map (fun f => f.id) = [1, 3] := by
  refine ⟨?_, ?_, by with_unfolding_all decide⟩
  · intro x hx
    rcases (mem_create_grid ring cl ct x).mp hx with ⟨r, c, _, _, _, hx2⟩
    rw [hx2]
    exact ⟨rfl, rfl, rfl⟩
  · intro f hf r cc hleft hbottom
    rcases feature_from_cell (create_grid ring cl ct) pts f hf with
      ⟨x, hx, hid, hl, _, _, hb, _⟩
    rcases (mem_create_grid ring cl ct x).mp hx with ⟨r0, c0, _, _, _, hx2⟩
    have hleft2 : (cc : ℚ) * cl = (c0 : ℚ) * cl := by
      have h1 : f.left = minLon ring + (c0 : ℚ) * cl := by
        rw [hl, hx2]
        rfl
      rw [hleft] at h1
      linarith
    have hbot2 : (r : ℚ) * ct = (r0 : ℚ) * ct := by
      have h1 : f.bottom = minLat ring + (r0 : ℚ) * ct := by
        rw [hb, hx2]
        rfl
      rw [hbottom] at h1
      linarith
    have hcc : cc = c0 := by
      have := mul_right_cancel₀ (ne_of_gt hcl) hleft2
      exact_mod_cast this
    have hrr : r = r0 := by
      have := mul_right_cancel₀ (ne_of_gt hct) hbot2
      exact_mod_cast this
    rw [hid, hx2, hcc, hrr]
    rfl

/-- Witness for C4: the theorem applied to the concrete `2 × 2` square
run, giving the non-contiguous emitted id list `[1, 3]`. -/
theorem id_scheme_witness :
    (process_grid (create_grid sq2Ring 1 1) demoPts).map (fun f => f.id) = [1, 3] :=
  (id_scheme sq2Ring 1 1 demoPts (by norm_num) (by norm_num)).2.2

/-- C5: a lattice cell is kept iff its rectangle satisfies the inclusive
intersects predicate against the boundary ring (the model of RGeo
`intersects?`, true for any shared point, including a shared edge or
vertex); hence every cell of the grid, and every emitted feature,
carries a rectangle that intersects the boundary, and a lattice position
whose rectangle does not intersect the boundary never appears, whatever
the loaded points are. -/
theorem kept_iff_intersects (ring : List (ℚ × ℚ)) (cl ct : ℚ) (pts : List DataPoint) :
    (∀ r c : ℕ, r < numRows ring ct → c < numCols ring cl →
      (latticeCell (minLon ring) (minLat ring) cl ct (r * numCols ring cl + c + 1) r c
          ∈ create_grid ring cl ct
        ↔ cellKept ring (minLon ring) (minLat ring) cl ct r c)) ∧
    (∀ c ∈ create_grid ring cl ct,
      rectIntersectsRing ring c.left c.bottom c.right c.top) ∧
    (∀ f ∈ process_grid (create_grid ring cl ct) pts,
      rectIntersectsRing ring f.left f.bottom f.right f.top) := by
  have hmem : ∀ c ∈ create_grid ring cl ct,
      rectIntersectsRing ring c.left c.bottom c.right c.top := by
    intro x hx
    rcases (mem_create_grid ring cl ct x).mp hx with ⟨r, c, _, _, hk, hx2⟩
    rw [hx2]
    exact hk
  refine ⟨?_, hmem, ?_⟩
  · intro r c hr hc
    constructor
    · intro hmem2
      rcases (mem_create_grid ring cl ct _).mp hmem2 with ⟨r0, c0, _, _, hk, hx2⟩
      have hrow : r = r0 := congrArg GridCell.row hx2
      have hcol : c = c0 := congrArg GridCell.col hx2
      rw [hrow, hcol]
      exact hk
    · intro hk
      exact (mem_create_grid ring cl ct _).mpr ⟨r, c, hr, hc, hk, rfl⟩
  · intro f hf
    rcases feature_from_cell (create_grid ring cl ct) pts f hf with
      ⟨x, hx, _, hl, ht, hrt, hb, _⟩
    rw [hl, hb, hrt, ht]
    exact hmem x hx

/-- Witness for C5: the kept cell at position `(0, 0)` of the square run
has a rectangle intersecting the boundary ring. -/
theorem kept_iff_intersects_witness :
    rectIntersectsRing sq2Ring
      (latticeCell (minLon sq2Ring) (minLat sq2Ring) 1 1 1 0 0).left
      (latticeCell (minLon sq2Ring) (minLat sq2Ring) 1 1 1 0 0).bottom
      (latticeCell (minLon sq2Ring) (minLat sq2Ring) 1 1 1 0 0).right
      (latticeCell (minLon sq2Ring) (minLat sq2Ring) 1 1 1 0 0).top :=
  (kept_iff_intersects sq2Ring 1 1 []).2.1 _ (by with_unfolding_all decide)

/-! ### Lemmas about price statistics, rounding and aggregation -/

lemma foldl_min_le_init (qs : List ℚ) : ∀ q : ℚ, qs.foldl min q ≤ q := by
  induction qs with
  | nil =>
    intro q
    exact le_refl q
  | cons x xs ih =>
    intro q
    exact le_trans (ih (min q x)) (min_le_left q x)

lemma foldl_min_le_mem (qs : List ℚ) : ∀ q : ℚ, ∀ x ∈ qs, qs.foldl min q ≤ x := by
  induction qs with
  | nil =>
    intro q x hx
    cases hx
  | cons y ys ih =>
    intro q x hx
    rcases List.mem_cons.mp hx with h | h
    · rw [List.foldl_cons]
      subst h
      exact le_trans (foldl_min_le_init ys (min q x)) (min_le_right q x)
    · exact ih (min q y) x h

lemma foldl_min_le_all (q : ℚ) (qs : List ℚ) : ∀ x ∈ q :: qs, qs.foldl min q ≤ x := by
  intro x hx
  rcases List.mem_cons.mp hx with h | h
  · rw [h]
    exact foldl_min_le_init qs q
  · exact foldl_min_le_mem qs q x h

lemma foldl_min_mem (qs : List ℚ) : ∀ q : ℚ, qs.foldl min q ∈ q :: qs := by
  induction qs with
  | nil =>
    intro q
    exact List.mem_singleton.mpr rfl
  | cons x xs ih =>
    intro q
    rw [List.foldl_cons]
    rcases List.mem_cons.mp (ih (min q x)) with h | h
    · rw [h]
      rcases min_choice q x with h2 | h2
      · rw [h2]
        exact List.mem_cons_self _ _
      · rw [h2]
        exact List.mem_cons_of_mem _ (List.mem_cons_self _ _)
    · exact List.mem_cons_of_mem _ (List.mem_cons_of_mem _ h)

lemma le_foldl_max_init (qs : List ℚ) : ∀ q : ℚ, q ≤ qs.foldl max q := by
  induction qs with
  | nil =>
    intro q
    exact le_refl q
  | cons x xs ih =>
    intro q
    exact le_trans (le_max_left q x) (ih (max q x))

lemma mem_le_foldl_max (qs : List ℚ) : ∀ q : ℚ, ∀ x ∈ qs, x ≤ qs.foldl max q := by
  induction qs with
  | nil =>
    intro q x hx
    cases hx
  | cons y ys ih =>
    intro q x hx
    rcases List.mem_cons.mp hx with h | h
    · rw [List.foldl_cons]
      subst h
      exact le_trans (le_max_right q x) (le_foldl_max_init ys (max q x))
    · exact ih (max q y) x h

lemma le_foldl_max_all (q : ℚ) (qs : List ℚ) : ∀ x ∈ q :: qs, x ≤ qs.foldl max q := by
  intro x hx
  rcases List.mem_cons.mp hx with h | h
  · rw [h]
    exact le_foldl_max_init qs q
  · exact mem_le_foldl_max qs q x h

lemma foldl_max_mem (qs : List ℚ) : ∀ q : ℚ, qs.foldl max q ∈ q :: qs := by
  induction qs with
  | nil =>
    intro q
    exact List.mem_singleton.mpr rfl
  | cons x xs ih =>
    intro q
    rw [List.foldl_cons]
    rcases List.mem_cons.mp (ih (max q x)) with h | h
    · rw [h]
      rcases max_choice q x with h2 | h2
      · rw [h2]
        exact List.mem_cons_self _ _
      · rw [h2]
        exact List.mem_cons_of_mem _ (List.mem_cons_self _ _)
    · exact List.mem_cons_of_mem _ (List.mem_cons_of_mem _ h)

lemma mul_length_le_sum (l : List ℚ) (m : ℚ) (h : ∀ x ∈ l, m ≤ x) :
    m * (l.length : ℚ) ≤ l.sum := by
  induction l with
  | nil => simp
  | cons x xs ih =>
    have h1 : m ≤ x := h x (List.mem_cons_self x xs)
    have h2 := ih (fun y hy => h y (List.mem_cons_of_mem x hy))
    rw [List.sum_cons, List.length_cons]
    push_cast
    nlinarith [h1, h2]

lemma sum_le_mul_length (l : List ℚ) (M : ℚ) (h : ∀ x ∈ l, x ≤ M) :
    l.sum ≤ M * (l.length : ℚ) := by
  induction l with
  | nil => simp
  | cons x xs ih =>
    have h1 : x ≤ M := h x (List.mem_cons_self x xs)
    have h2 := ih (fun y hy => h y (List.mem_cons_of_mem x hy))
    rw [List.sum_cons, List.length_cons]
    push_cast
    nlinarith [h1, h2]

lemma stats_of_pos {q : ℚ} {qs : List ℚ} (hpos : ∀ p ∈ q :: qs, 0 < p) :
    calculate_price_stats (q :: qs)
      = { pmin := some (qs.foldl min q), pmax := some (qs.foldl max q),
          pmean := some ((q :: qs).sum / ((qs.length + 1 : ℕ) : ℚ)),
          count := qs.length + 1 } := by
  have hf : (q :: qs).filter (fun p => decide (0 < p)) = q :: qs :=
    List.filter_eq_self.mpr (fun a ha => by simpa using hpos a ha)
  rw [calculate_price_stats, hf]

lemma pricesInCell_all_pos {pts : List DataPoint} (hpos : ∀ p ∈ pts, 0 < p.price)
    (c : GridCell) : ∀ x ∈ pricesInCell pts c, 0 < x := by
  intro x hx
  rcases List.mem_map.mp hx with ⟨l, hl, hlx⟩
  rw [← hlx]
  exact hpos l (List.mem_filter.mp hl).1

lemma pricesInCell_length (pts : List DataPoint) (c : GridCell) :
    (pricesInCell pts c).length = pts.countP (fun p => pointInCell c p) := by
  rw [pricesInCell, List.length_map, List.countP_eq_length_filter]

lemma stats_count_eq {pts : List DataPoint} (hpos : ∀ p ∈ pts, 0 < p.price) (c : GridCell) :
    (calculate_price_stats (pricesInCell pts c)).count
      = pts.countP (fun p => pointInCell c p) := by
  rw [← pricesInCell_length]
  cases h : pricesInCell pts c with
  | nil => rfl
  | cons q qs =>
    have hpp : ∀ x ∈ q :: qs, 0 < x := by
      rw [← h]
      exact pricesInCell_all_pos hpos c
    rw [stats_of_pos hpp]
    rfl

lemma emitFeature_eq {pts : List DataPoint} (hpos : ∀ p ∈ pts, 0 < p.price) (c : GridCell) :
    emitFeature pts c
      = if 0 < pts.countP (fun p => pointInCell c p) then
          some { id := c.id, left := c.left, top := c.top, right := c.right,
                 bottom := c.bottom,
                 price_min := round2 ((calculate_price_stats (pricesInCell pts c)).pmin.getD 0),
                 price_max := round2 ((calculate_price_stats (pricesInCell pts c)).pmax.getD 0),
                 price_mean := round2 ((calculate_price_stats (pricesInCell pts c)).pmean.getD 0),
                 listings_count := (pts.countP (fun p => pointInCell c p) : ℚ) }
        else none := by
  simp only [emitFeature, stats_count_eq hpos c]

lemma ratFloor_eq (q : ℚ) : ratFloor q = ⌊q⌋ := Rat.floor_def.symm

lemma rubyRound_nonneg_eq {q : ℚ} (h : 0 ≤ q) : rubyRound q = ⌊q + 1 / 2⌋ := by
  rw [rubyRound, if_pos h, ratFloor_eq]

lemma round2_nonneg {q : ℚ} (h : 0 ≤ q) : 0 ≤ round2 q := by
  have hq : (0 : ℚ) ≤ q * 100 := by nlinarith
  rw [round2, rubyRound_nonneg_eq hq]
  have h1 : (0 : ℤ) ≤ ⌊q * 100 + 1 / 2⌋ := by
    rw [Int.le_floor]
    push_cast
    linarith
  have h2 : (0 : ℚ) ≤ ((⌊q * 100 + 1 / 2⌋ : ℤ) : ℚ) := by exact_mod_cast h1
  linarith

lemma round2_mono_of_nonneg {a b : ℚ} (ha : 0 ≤ a) (hab : a ≤ b) :
    round2 a ≤ round2 b := by
  have hb : 0 ≤ b := le_trans ha hab
  have ha2 : (0 : ℚ) ≤ a * 100 := by nlinarith
  have hb2 : (0 : ℚ) ≤ b * 100 := by nlinarith
  rw [round2, round2, rubyRound_nonneg_eq ha2, rubyRound_nonneg_eq hb2]
  have h1 : ⌊a * 100 + 1 / 2⌋ ≤ ⌊b * 100 + 1 / 2⌋ := Int.floor_mono (by linarith)
  have h2 : ((⌊a * 100 + 1 / 2⌋ : ℤ) : ℚ) ≤ ((⌊b * 100 + 1 / 2⌋ : ℤ) : ℚ) := by
    exact_mod_cast h1
  linarith

lemma mean_bounds (q : ℚ) (qs : List ℚ) :
    qs.foldl min q ≤ (q :: qs).sum / ((qs.length + 1 : ℕ) : ℚ) ∧
    (q :: qs).sum / ((qs.length + 1 : ℕ) : ℚ) ≤ qs.foldl max q := by
  have hlen : (0 : ℚ) < ((qs.length + 1 : ℕ) : ℚ) := by
    exact_mod_cast Nat.succ_pos qs.length
  constructor
  · rw [le_div_iff₀ hlen]
    have h2 := mul_length_le_sum (q :: qs) (qs.foldl min q) (foldl_min_le_all q qs)
    rw [List.length_cons] at h2
    exact h2
  · rw [div_le_iff₀ hlen]
    have h2 := sum_le_mul_length (q :: qs) (qs.foldl max q) (le_foldl_max_all q qs)
    rw [List.length_cons] at h2
    exact h2

/-- C3: for every cell of the grid (under the loader invariant that all
listing prices are positive) the statistics count is the integer number of
points binned into the cell, a feature is emitted for the cell exactly
when that count is positive, the emitted `listings_count` equals that
count, and the output features are exactly the emitted cells in order. -/
theorem cell_count_emission (grid : List GridCell) (pts : List DataPoint)
    (hpos : ∀ p ∈ pts, 0 < p.price) :
    (∀ c ∈ grid, (calculate_price_stats (pricesInCell pts c)).count
        = pts.countP (fun p => pointInCell c p)) ∧
    (∀ c ∈ grid, ((emitFeature pts c).isSome
        ↔ 0 < pts.countP (fun p => pointInCell c p))) ∧
    (∀ c ∈ grid, ∀ f : Feature, emitFeature pts c = some f →
        f.listings_count = (pts.countP (fun p => pointInCell c p) : ℚ)) ∧
    process_grid grid pts = grid.filterMap (emitFeature pts) := by
  refine ⟨fun c _ => stats_count_eq hpos c, fun c _ => ?_, fun c _ f hf => ?_, rfl⟩
  · rw [emitFeature_eq hpos c]
    by_cases h : 0 < pts.countP (fun p => pointInCell c p)
    · rw [if_pos h]
      simpa using h
    · rw [if_neg h]
      simpa using h
  · rw [emitFeature_eq hpos c] at hf
    split at hf
    · have h2 := Option.some.inj hf
      rw [← h2]
    · cases hf

/-- Witness for C3: the theorem applied to the concrete square run. -/
theorem cell_count_emission_witness :
    process_grid (create_grid sq2Ring 1 1) demoPts
      = (create_grid sq2Ring 1 1).filterMap (emitFeature demoPts) :=
  (cell_count_emission (create_grid sq2Ring 1 1) demoPts
    (by with_unfolding_all decide)).2.2.2

/-- C6: over a nonempty list of positive prices the statistics are the
exact list minimum, maximum and `sum / count` with the integer count, with
no rounding during aggregation; rounding to two decimals happens only in
the emitted feature, and a cell receiving the prices `[50, 100, 150]` is
emitted with `price_min = 50`, `price_max = 150`, `price_mean = 100` and
`listings_count = 3`. -/
theorem price_stats_correct (prices : List ℚ) (hne : prices ≠ [])
    (hpos : ∀ p ∈ prices, 0 < p) :
    (∃ pm pM : ℚ,
      calculate_price_stats prices
        = { pmin := some pm, pmax := some pM,
            pmean := some (prices.sum / (prices.length : ℚ)), count := prices.length } ∧
      pm ∈ prices ∧ (∀ p ∈ prices, pm ≤ p) ∧ pM ∈ prices ∧ (∀ p ∈ prices, p ≤ pM)) ∧
    (∀ (cell : GridCell) (pts : List DataPoint),
      pricesInCell pts cell = [50, 100, 150] →
      emitFeature pts cell
        = some { id := cell.id, left := cell.left, top := cell.top, right := cell.right,
                 bottom := cell.bottom, price_min := 50, price_max := 150,
                 price_mean := 100, listings_count := 3 }) := by
  constructor
  · obtain ⟨q, qs, rfl⟩ := List.exists_cons_of_ne_nil hne
    refine ⟨qs.foldl min q, qs.foldl max q, ?_, foldl_min_mem qs q, foldl_min_le_all q qs,
      foldl_max_mem qs q, le_foldl_max_all q qs⟩
    rw [stats_of_pos hpos]
    simp [List.length_cons]
  · intro cell pts h
    have hstats : calculate_price_stats ([50, 100, 150] : List ℚ)
        = { pmin := some 50, pmax := some 150, pmean := some 100, count := 3 } := by
      with_unfolding_all decide
    have h50 : round2 50 = 50 := by with_unfolding_all decide
    have h100 : round2 100 = 100 := by with_unfolding_all decide
    have h150 : round2 150 = 150 := by with_unfolding_all decide
    simp only [emitFeature, h, hstats]
    norm_num [h50, h100, h150]

/-- Witness for C6: the theorem applied to the price list `[50, 100, 150]`. -/
theorem price_stats_correct_witness :
    ∃ pm pM : ℚ,
      calculate_price_stats ([50, 100, 150] : List ℚ)
        = { pmin := some pm, pmax := some pM,
            pmean := some (([50, 100, 150] : List ℚ).sum / ((([50, 100, 150] : List ℚ).length : ℕ) : ℚ)),
            count := ([50, 100, 150] : List ℚ).length } ∧
      pm ∈ ([50, 100, 150] : List ℚ) ∧ (∀ p ∈ ([50, 100, 150] : List ℚ), pm ≤ p) ∧
      pM ∈ ([50, 100, 150] : List ℚ) ∧ (∀ p ∈ ([50, 100, 150] : List ℚ), p ≤ pM) :=
  (price_stats_correct [50, 100, 150] (by decide) (by norm_num)).1

/-- C10 counterexample: the accepted price `0.004` gives an emitted
feature whose rounded `price_min` is exactly 0, refuting strict positivity
of the rounded statistics. -/
theorem feature_price_ordering_cex :
    ∃ f ∈ process_grid (create_grid unitRing 1 1) tinyPricePts,
      f.price_min = 0 ∧ ¬(0 < f.price_min) := by
  with_unfolding_all decide

/-- C10 (amended): every emitted feature carries rounded statistics of
pre-rounding values `pm ≤ mu ≤ pM` with `0 < pm`; after the two-decimal
rounding the ordering survives but positivity weakens to
`0 ≤ price_min ≤ price_mean ≤ price_max`. -/
theorem feature_price_ordering (grid : List GridCell) (pts : List DataPoint)
    (hpos : ∀ p ∈ pts, 0 < p.price) :
    ∀ f ∈ process_grid grid pts,
      ∃ pm mu pM : ℚ, 0 < pm ∧ pm ≤ mu ∧ mu ≤ pM ∧
        f.price_min = round2 pm ∧ f.price_mean = round2 mu ∧ f.price_max = round2 pM ∧
        0 ≤ f.price_min ∧ f.price_min ≤ f.price_mean ∧ f.price_mean ≤ f.price_max := by
  intro f hf
  rcases List.mem_filterMap.mp hf with ⟨c, _, hemit⟩
  cases hpc : pricesInCell pts c with
  | nil =>
    rw [emitFeature, hpc] at hemit
    cases hemit
  | cons q qs =>
    have hpp : ∀ x ∈ q :: qs, 0 < x := by
      rw [← hpc]
      exact pricesInCell_all_pos hpos c
    rw [emitFeature, hpc, stats_of_pos hpp] at hemit
    rw [if_pos (Nat.succ_pos qs.length)] at hemit
    have hfeq := Option.some.inj hemit
    have hmin : 0 < qs.foldl min q := hpp _ (foldl_min_mem qs q)
    have hmb := mean_bounds q qs
    cases hfeq
    refine ⟨qs.foldl min q, (q :: qs).sum / ((qs.length + 1 : ℕ) : ℚ), qs.foldl max q,
      hmin, hmb.1, hmb.2, rfl, rfl, rfl, ?_, ?_, ?_⟩
    · show 0 ≤ round2 (qs.foldl min q)
      exact round2_nonneg (le_of_lt hmin)
    · show round2 (qs.foldl min q) ≤ round2 ((q :: qs).sum / ((qs.length + 1 : ℕ) : ℚ))
      exact round2_mono_of_nonneg (le_of_lt hmin) hmb.1
    · show round2 ((q :: qs).sum / ((qs.length + 1 : ℕ) : ℚ)) ≤ round2 (qs.foldl max q)
      exact round2_mono_of_nonneg (le_trans (le_of_lt hmin) hmb.1) hmb.2

/-- The feature the square run emits for cell 1. -/
def w10Feat : Feature :=
  { id := 1, left := 0, top := 1, right := 1, bottom := 0,
    price_min := 100, price_max := 100, price_mean := 100, listings_count := 1 }

/-- Witness for C10: the amended theorem applied to the concrete feature
emitted for cell 1 of the square run. -/
theorem feature_price_ordering_witness :
    ∃ pm mu pM : ℚ, 0 < pm ∧ pm ≤ mu ∧ mu ≤ pM ∧
      w10Feat.price_min = round2 pm ∧ w10Feat.price_mean = round2 mu ∧
      w10Feat.price_max = round2 pM ∧
      0 ≤ w10Feat.price_min ∧ w10Feat.price_min ≤ w10Feat.price_mean ∧
      w10Feat.price_mean ≤ w10Feat.price_max :=
  feature_price_ordering (create_grid sq2Ring 1 1) demoPts
    (by with_unfolding_all decide) w10Feat (by with_unfolding_all decide)

/-! ### Disjointness of cells and conservation of counts -/

lemma countP_le_one (l : List GridCell) (q : GridCell → Bool) (hnd : l.Nodup)
    (huniq : ∀ a ∈ l, ∀ b ∈ l, q a = true → q b = true → a = b) :
    l.countP q ≤ 1 := by
  induction l with
  | nil => simp
  | cons a t ih =>
    rw [List.countP_cons]
    have hat : a ∉ t := (List.nodup_cons.mp hnd).1
    have hndt : t.Nodup := (List.nodup_cons.mp hnd).2
    by_cases hqa : q a = true
    · have hzero : t.countP q = 0 := by
        rw [List.countP_eq_zero]
        intro b hb hqb
        have hba := huniq a (List.mem_cons_self a t) b (List.mem_cons_of_mem a hb) hqa hqb
        rw [hba] at hat
        exact hat hb
      rw [hzero]
      simp [hqa]
    · have ht := ih hndt (fun a2 ha2 b hb hq1 hq2 =>
        huniq a2 (List.mem_cons_of_mem a ha2) b (List.mem_cons_of_mem a hb) hq1 hq2)
      simp [hqa]
      omega

lemma lattice_interval_unique {m cl x : ℚ} (hcl : 0 < cl) {k1 k2 : ℕ}
    (h1a : m + (k1 : ℚ) * cl < x) (h1b : x < m + (k1 : ℚ) * cl + cl)
    (h2a : m + (k2 : ℚ) * cl < x) (h2b : x < m + (k2 : ℚ) * cl + cl) : k1 = k2 := by
  by_contra hne
  rcases Nat.lt_or_ge k1 k2 with hlt | hge
  · have hc : ((k1 : ℚ) + 1) ≤ (k2 : ℚ) := by exact_mod_cast hlt
    have hmul := mul_le_mul_of_nonneg_right hc (le_of_lt hcl)
    nlinarith
  · have hlt2 : k2 < k1 := lt_of_le_of_ne hge (fun he => hne he.symm)
    have hc : ((k2 : ℚ) + 1) ≤ (k1 : ℚ) := by exact_mod_cast hlt2
    have hmul := mul_le_mul_of_nonneg_right hc (le_of_lt hcl)
    nlinarith

lemma cell_unique_contains (ring : List (ℚ × ℚ)) (cl ct : ℚ) (hcl : 0 < cl)
    (hct : 0 < ct) (p : DataPoint) :
    ∀ c1 ∈ create_grid ring cl ct, ∀ c2 ∈ create_grid ring cl ct,
      pointInCell c1 p = true → pointInCell c2 p = true → c1 = c2 := by
  intro c1 h1 c2 h2 hp1 hp2
  rcases (mem_create_grid ring cl ct c1).mp h1 with ⟨r1, k1, _, _, _, he1⟩
  rcases (mem_create_grid ring cl ct c2).mp h2 with ⟨r2, k2, _, _, _, he2⟩
  rw [he1] at hp1
  rw [he2] at hp2
  simp only [pointInCell, latticeCell, decide_eq_true_eq] at hp1 hp2
  obtain ⟨ha1, ha2, ha3, ha4⟩ := hp1
  obtain ⟨hb1, hb2, hb3, hb4⟩ := hp2
  have hk : k1 = k2 := lattice_interval_unique hcl ha1 ha2 hb1 hb2
  have hr : r1 = r2 := lattice_interval_unique hct ha3 ha4 hb3 hb4
  rw [he1, he2, hk, hr]

lemma sum_indicator_countP (l : List GridCell) (q : GridCell → Bool) :
    (l.map (fun c => if q c = true then (1 : ℕ) else 0)).sum = l.countP q := by
  induction l with
  | nil => rfl
  | cons a t ih =>
    rw [List.map_cons, List.sum_cons, List.countP_cons, ih]
    by_cases h : q a = true
    · simp [h, Nat.add_comm]
    · simp [h]

lemma sum_counts_eq_countP (cells : List GridCell) (pts : List DataPoint)
    (h1 : ∀ p : DataPoint, cells.countP (fun c => pointInCell c p) ≤ 1) :
    (cells.map (fun c => pts.countP (fun p => pointInCell c p))).sum
      = pts.countP (fun p => cells.any (fun c => pointInCell c p)) := by
  induction pts with
  | nil => simp
  | cons p rest ih =>
    simp only [List.countP_cons]
    rw [List.sum_map_add, ih, sum_indicator_countP]
    by_cases hany : cells.any (fun c => pointInCell c p) = true
    · have hpos2 : 0 < cells.countP (fun c => pointInCell c p) := by
        rw [List.countP_pos_iff]
        rcases List.any_eq_true.mp hany with ⟨c, hcmem, hcp⟩
        exact ⟨c, hcmem, hcp⟩
      have hone : cells.countP (fun c => pointInCell c p) = 1 :=
        le_antisymm (h1 p) hpos2
      simp [hany, hone]
    · have hzero : cells.countP (fun c => pointInCell c p) = 0 := by
        rw [List.countP_eq_zero]
        intro c hcmem hcp
        exact hany (List.any_eq_true.mpr ⟨c, hcmem, hcp⟩)
      simp [hany, hzero]

lemma process_grid_sum (grid : List GridCell) (pts : List DataPoint)
    (hpos : ∀ p ∈ pts, 0 < p.price) :
    ((process_grid grid pts).map (fun f => f.listings_count)).sum
      = (((grid.map (fun c => pts.countP (fun p => pointInCell c p))).sum : ℕ) : ℚ) := by
  induction grid with
  | nil => simp [process_grid]
  | cons c t ih =>
    by_cases h : 0 < pts.countP (fun p => pointInCell c p)
    · obtain ⟨f, hf⟩ : ∃ f, emitFeature pts c = some f := by
        rw [emitFeature_eq hpos c, if_pos h]
        exact ⟨_, rfl⟩
      have hcount : f.listings_count = (pts.countP (fun p => pointInCell c p) : ℚ) := by
        have hf2 := hf
        rw [emitFeature_eq hpos c, if_pos h] at hf2
        rw [← Option.some.inj hf2]
      rw [process_grid, List.filterMap_cons_some hf, List.map_cons, List.sum_cons,
        hcount, List.map_cons, List.sum_cons]
      rw [process_grid] at ih
      rw [ih]
      push_cast
      ring
    · have hnone : emitFeature pts c = none := by
        rw [emitFeature_eq hpos c, if_neg h]
      have h0 : pts.countP (fun p => pointInCell c p) = 0 := Nat.eq_zero_of_not_pos h
      rw [process_grid, List.filterMap_cons_none hnone, List.map_cons, List.sum_cons, h0]
      rw [process_grid] at ih
      rw [ih]
      push_cast
      ring

/-- C1 counterexample: the point with `lon = 1, lat = 1/2` lies exactly on
the left edge of kept cell 2 of the square run, so the half-open
`[left,right) × [bottom,top)` test of the claim puts it inside that cell,
yet the code's strict containment counts it in no cell and the emitted
`listings_count` total is 0, not 1. -/
theorem aggregation_halfopen_cex :
    (∃ c ∈ create_grid sq2Ring 1 1,
      c.left ≤ edgePt.lon ∧ edgePt.lon < c.right ∧
        c.bottom ≤ edgePt.lat ∧ edgePt.lat < c.top) ∧
    (∀ c ∈ create_grid sq2Ring 1 1, pointInCell c edgePt = false) ∧
    ((process_grid (create_grid sq2Ring 1 1) [edgePt]).map
        (fun f => f.listings_count)).sum = 0 := by
  with_unfolding_all decide

/-- C1 (amended): the aggregator classifies a point as inside a kept cell
exactly when `left < lon < right` and `bottom < lat < top` (open
rectangle, the OGC `contains` semantics of the code); a point on any cell
edge, the left and bottom edges included, is counted in no cell.  No
point is ever counted in more than one cell, and the sum of the emitted
`listings_count` values equals the number of loaded points lying strictly
inside some kept cell. -/
theorem aggregation_strict_containment (ring : List (ℚ × ℚ)) (cl ct : ℚ)
    (pts : List DataPoint) (hcl : 0 < cl) (hct : 0 < ct)
    (hpos : ∀ p ∈ pts, 0 < p.price) :
    (∀ c ∈ create_grid ring cl ct, ∀ p : DataPoint,
      pointInCell c p = true ↔
        (c.left < p.lon ∧ p.lon < c.right ∧ c.bottom < p.lat ∧ p.lat < c.top)) ∧
    (∀ p : DataPoint, (create_grid ring cl ct).countP (fun c => pointInCell c p) ≤ 1) ∧
    ((process_grid (create_grid ring cl ct) pts).map (fun f => f.listings_count)).sum
      = ((pts.countP (fun p => (create_grid ring cl ct).any (fun c => pointInCell c p)) : ℕ) : ℚ) := by
  have hdis : ∀ p : DataPoint,
      (create_grid ring cl ct).countP (fun c => pointInCell c p) ≤ 1 := by
    intro p
    refine countP_le_one _ _ (create_grid_nodup ring cl ct) ?_
    intro a ha b hb hqa hqb
    exact cell_unique_contains ring cl ct hcl hct p a ha b hb hqa hqb
  refine ⟨fun c _ p => by simp [pointInCell], hdis, ?_⟩
  rw [process_grid_sum (create_grid ring cl ct) pts hpos,
    sum_counts_eq_countP (create_grid ring cl ct) pts hdis]

/-- Witness for C1: conservation on the concrete square run, where both
loaded points land strictly inside kept cells. -/
theorem aggregation_strict_containment_witness :
    ((process_grid (create_grid sq2Ring 1 1) demoPts).map
        (fun f => f.listings_count)).sum
      = ((demoPts.countP
            (fun p => (create_grid sq2Ring 1 1).any (fun c => pointInCell c p)) : ℕ) : ℚ) :=
  (aggregation_strict_containment sq2Ring 1 1 demoPts (by norm_num) (by norm_num)
    (by with_unfolding_all decide)).2.2

/-! ### Command-line behaviour and the coordinate converter -/

/-- C2 counterexample: invoking the script with zero positional arguments
takes the same branch as the help flag (line 327), printing the usage text
and terminating with exit status 0 — not a non-zero validation failure as
the claim states. -/
theorem cli_no_city_cex :
    parseArgs [] = CliOutcome.usageExitZero ∧ cliExitCode (parseArgs []) = some 0 := by
  decide

/-- C2 (amended): invoking the program with no city argument prints the
usage text and terminates with exit status 0, exactly the behaviour of the
help flag; it is not treated as a fatal non-zero argument error. -/
theorem cli_no_city_exits_zero (argv : List (List Char)) (h : argv.length < 1) :
    parseArgs argv = CliOutcome.usageExitZero ∧ cliExitCode (parseArgs argv) = some 0 := by
  have hcase : parseArgs argv = CliOutcome.usageExitZero := by
    rw [parseArgs.eq_def, if_pos (Or.inr (Or.inr h))]
  exact ⟨hcase, by rw [hcase]; rfl⟩

/-- Witness for C2: the amended theorem applied to the empty argument
list. -/
theorem cli_no_city_exits_zero_witness :
    parseArgs ([] : List (List Char)) = CliOutcome.usageExitZero ∧
    cliExitCode (parseArgs ([] : List (List Char))) = some 0 :=
  cli_no_city_exits_zero [] (by decide)

/-- C9: the converter holds the process-wide constant reference latitude
38.7 (a parameterless constant, independent of the city and of every
input), and for every meters value `m` it returns
`m / 111000` degrees of latitude and
`m / (111000 * cos(referenceLat in radians))` degrees of longitude. -/
theorem coordinate_converter_formulas (m : ℝ) :
    referenceLat = 38.7 ∧
    meters_to_degrees_lat m = m / 111000 ∧
    meters_to_degrees_lon m = m / (111000 * Real.cos (referenceLat * Real.pi / 180)) :=
  ⟨rfl, rfl, rfl⟩

end AirbnbGrid
